import Mathlib

/-!
Verification of the console-to-logger rewrite script
(`find_replace_all_console_logs.py`).

The script reads a TypeScript file, optionally inserts a logger import line
after the textually last import statement, rewrites `console.log` /
`console.error` / `console.warn` calls to `logger.*` calls through an ordered
list of regular-expression substitutions, and writes the file back when the
text changed.  `main` drives a fixed list of files, skipping missing ones and
summing the per-file change counts.

Text is modelled as `List Char`.  The two regular-expression engines the
script relies on are embedded directly:

* the generic import pattern `(import.*?from.*?["\x27].*?["\x27])`, with
  Python's lazy-quantifier backtracking semantics and `.` not matching a
  newline (`mQuote`, `mStage2`, `mFrom`, `mImport`, `findImports` model
  `re.findall` over that pattern);

* the twelve call-rewriting patterns, each of the shape
  `console\.NAME\( <form> \)` where every quantified character class
  `[^c]*` / `[^c]+` is immediately followed by the literal `c` it excludes,
  so matching is deterministic: the class consumes exactly the characters up
  to the first occurrence of `c` (`quotedForm`, `tmplExtForm`,
  `catchAllForm`, `subMatchAt`); `subRule` models `re.sub` (leftmost,
  non-overlapping, replacements not rescanned) and `countRule` models
  `len(re.findall(...))` over the same scan.

`Python str.replace` (used to insert the import line after the last import
match, and which replaces every occurrence of its needle) is `replaceAll`.
All scanning functions are written with an explicit fuel argument equal to
the text length, which strictly bounds the number of scanning steps, so
every definition is structurally recursive and kernel-computable.
-/

set_option maxRecDepth 100000

namespace ConsoleRewrite

/-- Program text: a string as a list of characters. -/
abbrev Str := List Char

/-- The backtick character, delimiter of template literals. -/
def btick : Char := Char.ofNat 96

/-- The single-quote character. -/
def squote : Char := Char.ofNat 39

/-- The double-quote character. -/
def dquote : Char := '"'

/-- The closing parenthesis. -/
def rpar : Char := ')'

/-- The newline character (not matched by `.` in Python regexes). -/
def nl : Char := '\n'

/-- Python substring containment: `containsSub t pat` is `pat in t`. -/
def containsSub : Str → Str → Bool
  | [], pat => pat.isPrefixOf ([] : Str)
  | c :: cs, pat => pat.isPrefixOf (c :: cs) || containsSub cs pat

/-- Marker substring `from "./Logger"` (line 21 of the script). -/
def markerNodes : Str := "from \"./Logger\"".toList

/-- Marker substring `from "../Logger"` (line 21 of the script). -/
def markerSubdir : Str := "from \"../Logger\"".toList

/-- Line 21: `'from "./Logger"' in content or 'from "../Logger"' in content`. -/
def hasLoggerImport (t : Str) : Bool :=
  containsSub t markerNodes || containsSub t markerSubdir

/-- The import line used for files directly in `nodes/` (line 36). -/
def importLineNodes : Str :=
  "import \x7b functionRegistryLogger as logger \x7d from \"./Logger\"".toList

/-- The import line used for files in a subdirectory of `nodes/` (line 39). -/
def importLineSubdir : Str :=
  "import \x7b functionRegistryLogger as logger \x7d from \"../Logger\"".toList

/-- The directory marker `nodes/` tested on the path (line 26). -/
def nodesDir : Str := "nodes/".toList

/-- The excluded subdirectory markers (lines 28-33). -/
def excludedSubdirs : List Str :=
  ["Function/".toList, "CallFunction/".toList,
   "ReturnFromFunction/".toList, "ConfigureFunctions/".toList]

/-- Lines 26-39: select the import line from the file path. -/
def importLineFor (path : Str) : Str :=
  if containsSub path nodesDir && !(excludedSubdirs.any fun d => containsSub path d)
  then importLineNodes else importLineSubdir

/-!
### The generic import pattern

`(import.*?from.*?["\x27].*?["\x27])`, matched with Python backtracking
semantics.  Each `mXxx` function returns the number of characters a
successful match consumes from the given suffix, or `none`.  A lazy `.*?`
skips one (non-newline) character at a time, trying the rest of the pattern
first at each position; the whole remainder after a choice is explored
before the lazy quantifier is extended, which is Python's backtracking
order.
-/

/-- Is `c` one of the two quote characters of the class `["\x27]`? -/
def isQuoteChar (c : Char) : Bool := c = dquote || c = squote

/-- Match `.*?["\x27]` (the final stage of the import pattern): consume up
to and including the first quote character, failing at a newline or the end
of the text. -/
def mQuote : Str → Option Nat
  | [] => none
  | c :: cs =>
    if isQuoteChar c then some 1
    else if c = nl then none
    else (mQuote cs).map (· + 1)

/-- Match `.*?["\x27].*?["\x27]`: find a quote character (skipping
non-newline characters lazily) such that `mQuote` succeeds afterwards;
on failure of the remainder the quote is consumed by `.*?` and the search
continues. -/
def mStage2 : Str → Option Nat
  | [] => none
  | c :: cs =>
    if isQuoteChar c then
      match mQuote cs with
      | some n => some (1 + n)
      | none => if c = nl then none else (mStage2 cs).map (· + 1)
    else if c = nl then none
    else (mStage2 cs).map (· + 1)

/-- Match `.*?from.*?["\x27].*?["\x27]`: find the literal `from` (skipping
non-newline characters lazily) such that `mStage2` succeeds afterwards. -/
def mFrom : Str → Option Nat
  | [] => none
  | c :: cs =>
    if "from".toList.isPrefixOf (c :: cs) then
      match mStage2 ((c :: cs).drop 4) with
      | some n => some (4 + n)
      | none => if c = nl then none else (mFrom cs).map (· + 1)
    else if c = nl then none
    else (mFrom cs).map (· + 1)

/-- Match the whole import pattern at the start of `s`: the literal
`import` followed by `mFrom`.  Returns the length of the match. -/
def mImport (s : Str) : Option Nat :=
  if "import".toList.isPrefixOf s then
    match mFrom (s.drop 6) with
    | some n => some (6 + n)
    | none => none
  else none

/-- `re.findall` over the import pattern: scan start positions left to
right, record each leftmost match and continue after its end.  `fuel`
bounds the number of scanning steps; `fuel = s.length` always suffices
because every step consumes at least one character. -/
def findImportsAux : Nat → Str → List Str
  | 0, _ => []
  | _ + 1, [] => []
  | fuel + 1, c :: cs =>
    match mImport (c :: cs) with
    | some n => (c :: cs).take n :: findImportsAux fuel ((c :: cs).drop n)
    | none => findImportsAux fuel cs

/-- Line 43: `re.findall(import_pattern, content, re.MULTILINE)` (the group
spans the whole pattern, so each result is the whole match). -/
def findImports (s : Str) : List Str := findImportsAux s.length s

/-- Python `str.replace`: replace every non-overlapping occurrence of `old`
in `s` by `new`, scanning left to right.  The script only calls it with a
nonempty `old` (an import-pattern match starts with `import`); an empty
`old` is treated as matching nowhere.  `fuel = s.length` suffices. -/
def replaceAllAux : Nat → Str → Str → Str → Str
  | 0, s, _, _ => s
  | _ + 1, [], _, _ => []
  | fuel + 1, c :: cs, old, new =>
    if !old.isEmpty && old.isPrefixOf (c :: cs) then
      new ++ replaceAllAux fuel ((c :: cs).drop old.length) old new
    else
      c :: replaceAllAux fuel cs old new

/-- Line 46: `content.replace(last_import, ...)`. -/
def replaceAll (s old new : Str) : Str := replaceAllAux s.length s old new

/-- The number of occurrences of `pat` in `t` (at every position, counting
overlaps): the number of suffixes of `t` that `pat` is a prefix of. -/
def occCount : Str → Str → Nat
  | [], pat => if pat.isPrefixOf ([] : Str) then 1 else 0
  | c :: cs, pat => (if pat.isPrefixOf (c :: cs) then 1 else 0) + occCount cs pat

/-- Lines 20-48 of the script: the import-insertion stage.  Returns the new
text and the number of changes this stage contributes (1 when an import
line was inserted, 0 otherwise).  The inserted line is appended after
`last_import = imports[-1]` via `str.replace`, which rewrites every
occurrence of that match. -/
def addLoggerImport (path t : Str) : Str × Nat :=
  if hasLoggerImport t then (t, 0)
  else
    match (findImports t).getLast? with
    | none => (t, 0)
    | some last => (replaceAll t last (last ++ nl :: importLineFor path), 1)

/-!
### The twelve call-rewriting patterns (lines 51-73)

Each pattern is `console\.NAME\(` followed by one of five argument forms.
In every form each quantified class `[^c]*` / `[^c]+` is immediately
followed by the literal character `c` it excludes, so the class
deterministically consumes the characters up to the first `c`; a form
matcher returns the text standing between the opening `(` and the final
`)` (groups with their surrounding delimiters, as the replacement template
reassembles them) together with the rest of the text after the match.
-/

/-- The three call families. -/
inductive Fam | log | error | warn
deriving DecidableEq

/-- The five argument forms of the patterns.  `tmplSimple` is
``console\.log\(`([^`]*)`\)``; `tmplExt` is the error/warn variant
``console\.NAME\(`([^`]*)`([^)]*)\)``; `dq` and `sq` are the
double- or single-quoted string forms; `catchAll` is
`console\.NAME\(([^)]+)\)`. -/
inductive Form | tmplSimple | tmplExt | dq | sq | catchAll
deriving DecidableEq

/-- The name of a call family as it appears in the pattern text. -/
def famName : Fam → Str
  | .log => "log".toList
  | .error => "error".toList
  | .warn => "warn".toList

/-- The literal prefix `console.NAME(` of a pattern. -/
def consolePrefix (f : Fam) : Str := "console.".toList ++ famName f ++ ['(']

/-- The literal prefix `logger.NAME(` of a replacement template. -/
def loggerPrefix (f : Fam) : Str := "logger.".toList ++ famName f ++ ['(']

/-- Split `s` at the first occurrence of `c`, consuming it: `some (a, b)`
with `s = a ++ c :: b` and `c` not in `a`; `none` when `c` does not occur.
This is what a greedy `[^c]*` followed by the literal `c` matches. -/
def splitAtChar (c : Char) : Str → Option (Str × Str)
  | [] => none
  | x :: xs =>
    if x = c then some ([], xs)
    else (splitAtChar c xs).map (fun p => (x :: p.1, p.2))

/-- Match `d<class>d\)` where `<class>` is `[^d]*`: the quoted-literal
argument forms (template, double-quoted, single-quoted with their closing
parenthesis). -/
def quotedForm (d : Char) : Str → Option (Str × Str)
  | [] => none
  | c :: s1 =>
    if c = d then
      match splitAtChar d s1 with
      | some (g1, s2) =>
        match s2 with
        | c2 :: rest => if c2 = rpar then some (d :: (g1 ++ [d]), rest) else none
        | [] => none
      | none => none
    else none

/-- Match ``(`[^`]*`)([^)]*)\)``: the template form of `console.error` /
`console.warn`, whose second group absorbs extra arguments up to the first
closing parenthesis. -/
def tmplExtForm : Str → Option (Str × Str)
  | [] => none
  | c :: s1 =>
    if c = btick then
      match splitAtChar btick s1 with
      | some (g1, s2) =>
        match splitAtChar rpar s2 with
        | some (g2, rest) => some (btick :: (g1 ++ btick :: g2), rest)
        | none => none
      | none => none
    else none

/-- Match `([^)]+)\)`: the catch-all variables/expressions form, one or
more characters up to the first closing parenthesis. -/
def catchAllForm (s : Str) : Option (Str × Str) :=
  match splitAtChar rpar s with
  | some (g1, rest) => if g1.isEmpty then none else some (g1, rest)
  | none => none

/-- Dispatch a form matcher. -/
def matchForm : Form → Str → Option (Str × Str)
  | .tmplSimple, s => quotedForm btick s
  | .tmplExt, s => tmplExtForm s
  | .dq, s => quotedForm dquote s
  | .sq, s => quotedForm squote s
  | .catchAll, s => catchAllForm s

/-- Try to match pattern `(f, fm)` at the start of `s`.  On success,
returns the replacement text the template produces for the match (the
matched text with `console.` turned into `logger.`) and the rest of the
text after the match. -/
def subMatchAt (f : Fam) (fm : Form) (s : Str) : Option (Str × Str) :=
  if (consolePrefix f).isPrefixOf s then
    match matchForm fm (s.drop (consolePrefix f).length) with
    | some (mid, rest) => some (loggerPrefix f ++ mid ++ [rpar], rest)
    | none => none
  else none

/-- `re.sub(pattern, replacement, content)`: scan left to right, replace
each leftmost match and continue after it (replacements are not
rescanned).  `fuel = s.length` suffices: every step consumes at least one
character. -/
def subRuleAux : Nat → Fam → Form → Str → Str
  | 0, _, _, s => s
  | _ + 1, _, _, [] => []
  | fuel + 1, f, fm, c :: cs =>
    match subMatchAt f fm (c :: cs) with
    | some (repl, rest) => repl ++ subRuleAux fuel f fm rest
    | none => c :: subRuleAux fuel f fm cs

/-- `len(re.findall(pattern, content))`: the number of matches the same
left-to-right scan finds. -/
def countRuleAux : Nat → Fam → Form → Str → Nat
  | 0, _, _, _ => 0
  | _ + 1, _, _, [] => 0
  | fuel + 1, f, fm, c :: cs =>
    match subMatchAt f fm (c :: cs) with
    | some (_, rest) => 1 + countRuleAux fuel f fm rest
    | none => countRuleAux fuel f fm cs

/-- A rewrite rule: a call family and an argument form. -/
structure Rule where
  fam : Fam
  form : Form
deriving DecidableEq

/-- Line 76: apply one rule's substitution to the whole text. -/
def subRule (r : Rule) (s : Str) : Str := subRuleAux s.length r.fam r.form s

/-- Line 78: the number of matches of one rule's pattern in the text. -/
def countRule (r : Rule) (s : Str) : Nat := countRuleAux s.length r.fam r.form s

/-- Lines 51-73: the ordered list of the twelve pattern/replacement
rules. -/
def rules : List Rule :=
  [⟨.log, .tmplSimple⟩, ⟨.log, .dq⟩, ⟨.log, .sq⟩, ⟨.log, .catchAll⟩,
   ⟨.error, .tmplExt⟩, ⟨.error, .dq⟩, ⟨.error, .sq⟩, ⟨.error, .catchAll⟩,
   ⟨.warn, .tmplExt⟩, ⟨.warn, .dq⟩, ⟨.warn, .sq⟩, ⟨.warn, .catchAll⟩]

/-- Lines 75-81: fold the rules over the text.  For each rule, the text
after its substitution feeds the next rule (the script assigns
`content = new_content` only when they differ, but they are equal
otherwise, so the new text is passed on unconditionally); a rule
contributes `len(re.findall(...))` changes exactly when its substitution
changed the text. -/
def applyRulesFrom : List Rule → Str → Str × Nat
  | [], t => (t, 0)
  | r :: rs, t =>
    let nt := subRule r t
    let delta := if nt ≠ t then countRule r t else 0
    let res := applyRulesFrom rs nt
    (res.1, delta + res.2)

/-- The whole substitution stage: the twelve rules in order. -/
def rulesPass (t : Str) : Str × Nat := applyRulesFrom rules t

/-- Lines 20-81: the pure text transform of `process_file` — import
insertion followed by the substitution stage — returning the final text
and `changes_made`. -/
def processText (path t : Str) : Str × Nat :=
  let a := addLoggerImport path t
  let r := rulesPass a.1
  (r.1, a.2 + r.2)

/-- Lines 83-91 of `process_file`: when the final text differs from the
original the file is overwritten (`some newText`) and `changes_made` is
returned; otherwise nothing is written and 0 is returned. -/
def processFileW (path content : Str) : Option Str × Nat :=
  let r := processText path content
  if r.1 ≠ content then (some r.1, r.2) else (none, 0)

/-- A file system: each path maps to the text of the file there, or to
`none` when no file exists at that path. -/
def updateFs (fs : Str → Option Str) (p : Str) (v : Str) : Str → Option Str :=
  fun q => if q = p then some v else fs q

/-- Lines 96-101: the hardcoded list of files `main` processes. -/
def filesToProcess : List Str :=
  ["nodes/Function/Function.node.ts".toList,
   "nodes/CallFunction/CallFunction.node.ts".toList,
   "nodes/ReturnFromFunction/ReturnFromFunction.node.ts".toList,
   "nodes/ConfigureFunctions/ConfigureFunctions.node.ts".toList]

/-- Lines 103-112 of `main`: process the paths in order against a file
system.  An existing file is processed (and overwritten when the text
changed) and its reported change count added to the total; a missing path
is reported (collected in the middle component) and skipped.  Returns
`(total changes, reported missing paths, final file system)`. -/
def mainLoop (fs : Str → Option Str) : List Str → Nat × List Str × (Str → Option Str)
  | [] => (0, [], fs)
  | p :: ps =>
    match fs p with
    | some c =>
      let w := processFileW p c
      let fs' := match w.1 with
        | some nt => updateFs fs p nt
        | none => fs
      let r := mainLoop fs' ps
      (w.2 + r.1, r.2.1, r.2.2)
    | none =>
      let r := mainLoop fs ps
      (r.1, p :: r.2.1, r.2.2)

/-- The text after the first `k` rules of `rs` have been applied in
order. -/
def stageTextFrom (rs : List Rule) (k : Nat) (t : Str) : Str :=
  (rs.take k).foldl (fun s r => subRule r s) t

/-- The number of changes the fold of `rs` over `t` attributes to the rule
at position `k`: the number of matches of that rule's pattern against the
text entering that rule, when the substitution changed the text, and 0
otherwise (or when there is no rule at `k`). -/
def attributedFrom (rs : List Rule) (k : Nat) (t : Str) : Nat :=
  match rs[k]? with
  | some r =>
    let pre := stageTextFrom rs k t
    if subRule r pre ≠ pre then countRule r pre else 0
  | none => 0

/-- The default rule used with `List.getD` when indexing `rules`. -/
def defRule : Rule := ⟨Fam.log, Form.tmplSimple⟩

/-- A concrete file system holding one file, used when exercising
`mainLoop` on a path list that names the same file twice. -/
def fsTwice : Str → Option Str :=
  fun q => if q = "p.ts".toList
           then some "console.log(console.log(x)); console.log(y)".toList
           else none

/-!
### Helper lemmas
-/

theorem isPrefixOf_self_append (u s : Str) : u.isPrefixOf (u ++ s) = true :=
  List.isPrefixOf_iff_prefix.mpr (List.prefix_append u s)

theorem isPrefixOf_append_drop (u s : Str) (h : u.isPrefixOf s = true) :
    s = u ++ s.drop u.length := by
  obtain ⟨t2, ht⟩ := List.isPrefixOf_iff_prefix.mp h
  rw [← ht, List.drop_left]

theorem occCount_cons (c : Char) (cs pat : Str) :
    occCount (c :: cs) pat
      = (if pat.isPrefixOf (c :: cs) then 1 else 0) + occCount cs pat := rfl

theorem occCount_nil_pat (t : Str) : occCount t [] = t.length + 1 := by
  induction t with
  | nil => rfl
  | cons c cs ih =>
    rw [occCount_cons, ih]
    simp [List.isPrefixOf]
    omega

theorem occCount_le_append (x s pat : Str) :
    occCount s pat ≤ occCount (x ++ s) pat := by
  induction x with
  | nil => exact Nat.le_refl _
  | cons c cs ih =>
    rw [List.cons_append, occCount_cons]
    split <;> omega

theorem occCount_pos_self_append (u s : Str) (h : u ≠ []) :
    1 ≤ occCount (u ++ s) u := by
  cases u with
  | nil => exact absurd rfl h
  | cons a as =>
    have hp := isPrefixOf_self_append (a :: as) s
    rw [List.cons_append] at hp ⊢
    rw [occCount_cons, hp]
    simp

theorem replaceAllAux_step_hit (fuel : Nat) (c : Char) (cs old new : Str)
    (h : old.isPrefixOf (c :: cs) = true) (hne : old ≠ []) :
    replaceAllAux (fuel + 1) (c :: cs) old new
      = new ++ replaceAllAux fuel ((c :: cs).drop old.length) old new := by
  have hemp : old.isEmpty = false := by
    cases old with
    | nil => exact absurd rfl hne
    | cons a as => rfl
  rw [replaceAllAux, hemp, h]
  simp

theorem replaceAllAux_step_miss (fuel : Nat) (c : Char) (cs old new : Str)
    (h : old.isPrefixOf (c :: cs) = false) :
    replaceAllAux (fuel + 1) (c :: cs) old new
      = c :: replaceAllAux fuel cs old new := by
  rw [replaceAllAux, h]
  simp

theorem replaceAllAux_of_occCount_zero (old new : Str) :
    ∀ (fuel : Nat) (s : Str), occCount s old = 0 →
      replaceAllAux fuel s old new = s := by
  intro fuel
  induction fuel with
  | zero => intro s _; rfl
  | succ fuel ih =>
    intro s h
    cases s with
    | nil => rfl
    | cons c cs =>
      rw [occCount_cons] at h
      by_cases hp : old.isPrefixOf (c :: cs)
      · rw [hp] at h; simp at h
      · have hp' : old.isPrefixOf (c :: cs) = false := by
          revert hp; cases old.isPrefixOf (c :: cs) <;> simp
        rw [hp', if_neg (by simp)] at h
        rw [replaceAllAux_step_miss fuel c cs old new hp', ih cs (by omega)]

theorem replaceAllAux_unique (old new : Str) (hne : old ≠ []) :
    ∀ (p s : Str) (fuel : Nat), (p ++ old ++ s).length ≤ fuel →
      occCount (p ++ old ++ s) old = 1 →
      replaceAllAux fuel (p ++ old ++ s) old new = p ++ new ++ s := by
  intro p
  induction p with
  | nil =>
    intro s fuel hfuel huniq
    simp only [List.nil_append] at hfuel huniq ⊢
    cases old with
    | nil => exact absurd rfl hne
    | cons a as =>
      cases fuel with
      | zero => simp at hfuel
      | succ fuel =>
        have hp := isPrefixOf_self_append (a :: as) s
        rw [List.cons_append] at hp hfuel huniq ⊢
        rw [replaceAllAux_step_hit fuel a (as ++ s) (a :: as) new hp hne]
        have hdrop : (a :: (as ++ s)).drop (a :: as : Str).length = s := by
          have h0 := List.drop_left (a :: as) s
          rw [List.cons_append] at h0
          exact h0
        rw [hdrop]
        have hocc : occCount s (a :: as) = 0 := by
          rw [occCount_cons, hp] at huniq
          simp at huniq
          have hle := occCount_le_append as s (a :: as)
          omega
        rw [replaceAllAux_of_occCount_zero _ _ fuel s hocc]
  | cons c p' ih =>
    intro s fuel hfuel huniq
    rw [List.cons_append, List.cons_append] at hfuel huniq ⊢
    cases fuel with
    | zero => simp at hfuel
    | succ fuel =>
      have hp : old.isPrefixOf (c :: (p' ++ old ++ s)) = false := by
        by_contra hcon
        have hptrue : old.isPrefixOf (c :: (p' ++ old ++ s)) = true := by
          revert hcon
          cases old.isPrefixOf (c :: (p' ++ old ++ s)) <;> simp
        rw [occCount_cons, hptrue, if_pos rfl] at huniq
        have h2 := occCount_le_append p' (old ++ s) old
        have h3 := occCount_pos_self_append old s hne
        rw [← List.append_assoc] at h2
        omega
      rw [replaceAllAux_step_miss fuel c (p' ++ old ++ s) old new hp]
      rw [occCount_cons, hp, if_neg (by simp)] at huniq
      rw [ih s fuel (by simp at hfuel ⊢; omega) (by omega)]
      simp

theorem replaceAll_unique (p s old new : Str) (hne : old ≠ [])
    (huniq : occCount (p ++ old ++ s) old = 1) :
    replaceAll (p ++ old ++ s) old new = p ++ new ++ s :=
  replaceAllAux_unique old new hne p s _ (Nat.le_refl _) huniq

theorem splitAtChar_spec (c : Char) :
    ∀ (s a b : Str), splitAtChar c s = some (a, b) → s = a ++ c :: b ∧ c ∉ a := by
  intro s
  induction s with
  | nil => intro a b h; simp [splitAtChar] at h
  | cons x xs ih =>
    intro a b h
    rw [splitAtChar] at h
    by_cases hx : x = c
    · rw [if_pos hx] at h
      simp only [Option.some.injEq, Prod.mk.injEq] at h
      obtain ⟨ha, hb⟩ := h
      subst ha; subst hb; subst hx
      exact ⟨rfl, by simp⟩
    · rw [if_neg hx] at h
      cases hsp : splitAtChar c xs with
      | none => rw [hsp] at h; simp at h
      | some p =>
        obtain ⟨a', b'⟩ := p
        rw [hsp] at h
        simp only [Option.map_some', Option.some.injEq, Prod.mk.injEq] at h
        obtain ⟨ha, hb⟩ := h
        obtain ⟨h1, h2⟩ := ih a' b' (by rw [hsp, hb])
        subst ha
        constructor
        · simp [h1, hb]
        · simp only [List.mem_cons, not_or]
          exact ⟨fun hc => hx hc.symm, h2⟩

theorem countRuleAux_zero (f : Fam) (fm : Form) :
    ∀ (fuel : Nat) (s : Str), countRuleAux fuel f fm s = 0 →
      subRuleAux fuel f fm s = s := by
  intro fuel
  induction fuel with
  | zero => intro s _; rfl
  | succ fuel ih =>
    intro s h
    cases s with
    | nil => rfl
    | cons c cs =>
      cases hm : subMatchAt f fm (c :: cs) with
      | none =>
        rw [countRuleAux, hm] at h
        rw [subRuleAux, hm, ih cs h]
      | some p =>
        obtain ⟨repl, rest⟩ := p
        rw [countRuleAux, hm] at h
        have h2 : 1 + countRuleAux fuel f fm rest = 0 := h
        exact absurd h2 (by omega)

theorem countRule_zero_subRule (r : Rule) (t : Str) (h : countRule r t = 0) :
    subRule r t = t :=
  countRuleAux_zero r.fam r.form t.length t h

theorem applyRulesFrom_fixed (rs : List Rule) (t : Str)
    (h : ∀ r ∈ rs, subRule r t = t) : applyRulesFrom rs t = (t, 0) := by
  induction rs with
  | nil => rfl
  | cons r rs ih =>
    have hr : subRule r t = t := h r (by simp)
    have ih' := ih (fun r' hr' => h r' (by simp [hr']))
    simp [applyRulesFrom, hr, ih']

theorem stageTextFrom_cons (r : Rule) (rs : List Rule) (k : Nat) (t : Str) :
    stageTextFrom (r :: rs) (k + 1) t = stageTextFrom rs k (subRule r t) := by
  simp [stageTextFrom, List.take_succ_cons, List.foldl_cons]

theorem attributedFrom_cons (r : Rule) (rs : List Rule) (k : Nat) (t : Str) :
    attributedFrom (r :: rs) (k + 1) t = attributedFrom rs k (subRule r t) := by
  simp only [attributedFrom, List.getElem?_cons_succ, stageTextFrom_cons]

theorem stageTextFrom_succ (rs : List Rule) (d : Rule) :
    ∀ (k : Nat) (t : Str), k < rs.length →
      stageTextFrom rs (k + 1) t = subRule (rs.getD k d) (stageTextFrom rs k t) := by
  induction rs with
  | nil => intro k t hk; simp at hk
  | cons r rs ih =>
    intro k t hk
    cases k with
    | zero =>
      simp [stageTextFrom, List.take_succ_cons, List.getD_cons_zero]
    | succ k =>
      rw [stageTextFrom_cons, stageTextFrom_cons, List.getD_cons_succ]
      exact ih k (subRule r t) (by simpa using hk)

theorem applyRulesFrom_decomp (rs : List Rule) :
    ∀ t : Str,
      (applyRulesFrom rs t).2
          = ((List.range rs.length).map fun k => attributedFrom rs k t).sum
      ∧ (applyRulesFrom rs t).1 = stageTextFrom rs rs.length t := by
  induction rs with
  | nil => intro t; exact ⟨rfl, rfl⟩
  | cons r rs ih =>
    intro t
    obtain ⟨ih1, ih2⟩ := ih (subRule r t)
    constructor
    · show (applyRulesFrom (r :: rs) t).2 = _
      rw [List.length_cons, List.range_succ_eq_map]
      rw [List.map_cons, List.sum_cons, List.map_map]
      have hhead : attributedFrom (r :: rs) 0 t
          = if subRule r t ≠ t then countRule r t else 0 := by
        simp [attributedFrom, stageTextFrom]
      have htail : ((List.range rs.length).map
            ((fun k => attributedFrom (r :: rs) k t) ∘ Nat.succ)).sum
          = ((List.range rs.length).map fun k =>
              attributedFrom rs k (subRule r t)).sum := by
        congr 1
        apply List.map_congr_left
        intro k _
        exact attributedFrom_cons r rs k t
      show (if subRule r t ≠ t then countRule r t else 0)
            + (applyRulesFrom rs (subRule r t)).2 = _
      rw [hhead, htail, ih1]
    · show (applyRulesFrom rs (subRule r t)).1 = _
      rw [ih2, List.length_cons, stageTextFrom_cons]

/-!
### The claims
-/

/-- C1, counterexample: the claim fails because line 46 inserts the import
line with `str.replace`, which rewrites every occurrence of the last import
match.  On a text consisting of two identical import lines (and no logger
marker), the rewrite inserts the logger-import line twice — once after each
copy, hence also once at a position that is not after the textually
last import statement — instead of exactly once. -/
theorem c1_counterexample :
    hasLoggerImport "import a from \"x\"\nimport a from \"x\"\ncode".toList = false
    ∧ occCount "import a from \"x\"\nimport a from \"x\"\ncode".toList
        importLineNodes = 0
    ∧ occCount (addLoggerImport "nodes/foo.ts".toList
        "import a from \"x\"\nimport a from \"x\"\ncode".toList).1
        importLineNodes = 2 := by decide

/-- C1, amended: for input text containing no logger-import marker and at
least one match of the generic import pattern, *provided the textually
last import match occurs exactly once as a substring of the text*, the
import-insertion stage returns the text with exactly one copy of the
logger-import line inserted immediately after that last import statement
(and counts the insertion as one change). -/
theorem c1_amended (path t last p s : Str)
    (hmarker : hasLoggerImport t = false)
    (hlast : (findImports t).getLast? = some last)
    (hsplit : t = p ++ last ++ s)
    (huniq : occCount t last = 1) :
    addLoggerImport path t
      = (p ++ (last ++ nl :: importLineFor path) ++ s, 1) := by
  have hne : last ≠ [] := by
    intro h0
    subst h0
    rw [occCount_nil_pat] at huniq
    have ht : t = [] := List.length_eq_zero.mp (by omega)
    rw [ht] at hlast
    simp [findImports, findImportsAux] at hlast
  subst hsplit
  rw [addLoggerImport, hmarker]
  simp only [Bool.false_eq_true, if_false, hlast]
  rw [replaceAll_unique p s last (last ++ nl :: importLineFor path) hne huniq]

/-- C1, witness: a one-import text where the amended statement applies. -/
theorem c1_witness :
    hasLoggerImport "import a from \"b\"\ncode".toList = false
    ∧ (findImports "import a from \"b\"\ncode".toList).getLast?
        = some "import a from \"b\"".toList
    ∧ "import a from \"b\"\ncode".toList
        = [] ++ "import a from \"b\"".toList ++ "\ncode".toList
    ∧ occCount "import a from \"b\"\ncode".toList "import a from \"b\"".toList = 1
    ∧ addLoggerImport "nodes/foo.ts".toList "import a from \"b\"\ncode".toList
        = ([] ++ ("import a from \"b\"".toList
            ++ nl :: importLineFor "nodes/foo.ts".toList) ++ "\ncode".toList, 1) :=
  ⟨by decide, by decide, by decide, by decide,
   c1_amended "nodes/foo.ts".toList "import a from \"b\"\ncode".toList
     "import a from \"b\"".toList [] "\ncode".toList
     (by decide) (by decide) (by decide) (by decide)⟩

/-- C3: when the text already contains a logger-import marker, the
import-insertion stage leaves the text unchanged and contributes no change,
so the whole transform is exactly the substitution stage — no second import
line is ever inserted. -/
theorem c3_theorem (path t : Str) (h : hasLoggerImport t = true) :
    addLoggerImport path t = (t, 0) ∧ processText path t = rulesPass t := by
  have h1 : addLoggerImport path t = (t, 0) := by
    rw [addLoggerImport, h]
    simp
  refine ⟨h1, ?_⟩
  rw [processText, h1]
  simp

/-- C3, witness: a text containing `from "./Logger"`. -/
theorem c3_witness :
    hasLoggerImport "const x = 1 // from \"./Logger\"".toList = true
    ∧ (addLoggerImport "nodes/foo.ts".toList
          "const x = 1 // from \"./Logger\"".toList
        = ("const x = 1 // from \"./Logger\"".toList, 0)
      ∧ processText "nodes/foo.ts".toList "const x = 1 // from \"./Logger\"".toList
        = rulesPass "const x = 1 // from \"./Logger\"".toList) :=
  ⟨by decide,
   c3_theorem "nodes/foo.ts".toList "const x = 1 // from \"./Logger\"".toList
     (by decide)⟩

/-- C4: the inserted import line is selected by the file path.  For the
path `nodes/Function/foo.ts` (inside an excluded subdirectory of `nodes/`)
the inserted line imports from `"../Logger"` — the form the specification
calls the two-levels-up relative form; for the path `nodes/foo.ts`
(directly under `nodes/`) it imports from `"./Logger"` — the one-level-up
form.  The last two conjuncts exercise the insertion itself on a
one-import text. -/
theorem c4_theorem :
    importLineFor "nodes/Function/foo.ts".toList = importLineSubdir
    ∧ importLineFor "nodes/foo.ts".toList = importLineNodes
    ∧ containsSub importLineSubdir markerSubdir = true
    ∧ containsSub importLineNodes markerNodes = true
    ∧ addLoggerImport "nodes/Function/foo.ts".toList "import a from \"b\"".toList
        = ("import a from \"b\"".toList ++ nl :: importLineSubdir, 1)
    ∧ addLoggerImport "nodes/foo.ts".toList "import a from \"b\"".toList
        = ("import a from \"b\"".toList ++ nl :: importLineNodes, 1) := by decide

/-- C2, counterexample: the transform is not idempotent.  On the text
`console.log(console.log(x))` the catch-all `log` rule matches the outer
call up to the *first* closing parenthesis, producing
`logger.log(console.log(x))`; the inner call survives the first run (it
sits inside the replacement, which `re.sub` does not rescan), so a second
run rewrites it too, changing the text again and reporting one further
change instead of 0. -/
theorem c2_counterexample :
    (processText "nodes/foo.ts".toList "console.log(console.log(x))".toList).1
        = "logger.log(console.log(x))".toList
    ∧ processText "nodes/foo.ts".toList "logger.log(console.log(x))".toList
        = ("logger.log(logger.log(x))".toList, 1)
    ∧ "logger.log(logger.log(x))".toList ≠ "logger.log(console.log(x))".toList := by
  decide

/-- C2, amended: the transform is idempotent at any text already in fully
rewritten form — if the text contains a logger-import marker or contains no
match of the generic import pattern, and no rewrite rule's substitution
changes it, then the transform returns it unchanged and reports 0 changes.
(The output of a first run need not be of this shape: nested calls such as
`console.log(console.log(x))` leave a rewritable call behind, as the
counterexample shows.) -/
theorem c2_amended (path t : Str)
    (himp : hasLoggerImport t = true ∨ findImports t = [])
    (hfix : ∀ r ∈ rules, subRule r t = t) :
    processText path t = (t, 0) := by
  have h1 : addLoggerImport path t = (t, 0) := by
    rcases himp with h | h
    · rw [addLoggerImport, h]; simp
    · by_cases hm : hasLoggerImport t
      · rw [addLoggerImport, hm]; simp
      · have hm' : hasLoggerImport t = false := by
          revert hm; cases hasLoggerImport t <;> simp
        rw [addLoggerImport, hm', h]
        simp
  have h2 : rulesPass t = (t, 0) := applyRulesFrom_fixed rules t hfix
  rw [processText, h1]
  simp [h2]

/-- C2, witness: applying the amended statement at a fully rewritten
text. -/
theorem c2_witness :
    (hasLoggerImport "logger.log(\"hi\")".toList = true
      ∨ findImports "logger.log(\"hi\")".toList = [])
    ∧ (∀ r ∈ rules, subRule r "logger.log(\"hi\")".toList = "logger.log(\"hi\")".toList)
    ∧ processText "nodes/foo.ts".toList "logger.log(\"hi\")".toList
        = ("logger.log(\"hi\")".toList, 0) :=
  ⟨Or.inr (by decide), by decide,
   c2_amended "nodes/foo.ts".toList "logger.log(\"hi\")".toList
     (Or.inr (by decide)) (by decide)⟩

/-- C5, counterexample: the catch-all variables/expressions rule stops at
the first closing parenthesis *even when it is preceded by a backslash*:
in `console.log(a\x5c)b)` the class `[^)]+` cannot cross the `)` after the
backslash, so the match group is `a\x5c` and the remainder `b)` is left
untouched, rather than the match extending past the escaped parenthesis to
the outer `)`. -/
theorem c5_counterexample :
    subMatchAt Fam.log Form.catchAll "console.log(a\\)b)".toList
      = some ("logger.log(a\\)".toList, "b)".toList)
    ∧ ¬ subMatchAt Fam.log Form.catchAll "console.log(a\\)b)".toList
        = some ("logger.log(a\\)b)".toList, ([] : Str)) := by decide

/-- C5, amended: for each call family, the catch-all rule matches
`console.NAME(` followed by a nonempty group that stops at the first
closing parenthesis of the input, whether or not that parenthesis is
preceded by an escape character: the group contains no `)` at all, the
match consumes the terminating `)`, and the replacement reassembles
`logger.NAME(` around the unchanged group. -/
theorem c5_amended (f : Fam) (s repl rest : Str)
    (h : subMatchAt f Form.catchAll s = some (repl, rest)) :
    ∃ g, g ≠ [] ∧ rpar ∉ g
      ∧ s = consolePrefix f ++ (g ++ rpar :: rest)
      ∧ repl = loggerPrefix f ++ (g ++ [rpar]) := by
  rw [subMatchAt] at h
  by_cases hp : (consolePrefix f).isPrefixOf s
  · rw [if_pos hp] at h
    cases hsp : splitAtChar rpar (s.drop (consolePrefix f).length) with
    | none =>
      have hforms : matchForm Form.catchAll (s.drop (consolePrefix f).length) = none := by
        simp [matchForm, catchAllForm, hsp]
      rw [hforms] at h
      simp at h
    | some p =>
      obtain ⟨g1, r1⟩ := p
      by_cases hg : g1.isEmpty
      · have hforms : matchForm Form.catchAll (s.drop (consolePrefix f).length)
            = none := by
          simp [matchForm, catchAllForm, hsp, hg]
        rw [hforms] at h
        simp at h
      · have hforms : matchForm Form.catchAll (s.drop (consolePrefix f).length)
            = some (g1, r1) := by
          simp [matchForm, catchAllForm, hsp, hg]
        rw [hforms] at h
        simp only [Option.some.injEq, Prod.mk.injEq] at h
        obtain ⟨hrepl, hrest⟩ := h
        obtain ⟨hs1, hnot⟩ :=
          splitAtChar_spec rpar (s.drop (consolePrefix f).length) g1 r1 hsp
        refine ⟨g1, ?_, hnot, ?_, ?_⟩
        · intro h0
          subst h0
          exact hg rfl
        · rw [← hrest]
          conv_lhs => rw [isPrefixOf_append_drop (consolePrefix f) s hp]
          rw [hs1]
        · rw [← hrepl]
          simp [List.append_assoc]
  · rw [if_neg hp] at h
    simp at h

/-- C5, witness: the amended statement at a concrete catch-all match. -/
theorem c5_witness :
    subMatchAt Fam.log Form.catchAll "console.log(abc)x".toList
      = some ("logger.log(abc)".toList, "x".toList)
    ∧ ∃ g, g ≠ [] ∧ rpar ∉ g
        ∧ "console.log(abc)x".toList
            = consolePrefix Fam.log ++ (g ++ rpar :: "x".toList)
        ∧ "logger.log(abc)".toList = loggerPrefix Fam.log ++ (g ++ [rpar]) :=
  ⟨by decide,
   c5_amended Fam.log "console.log(abc)x".toList "logger.log(abc)".toList
     "x".toList (by decide)⟩

/-- C6, counterexample: over an arbitrary list of input paths the claimed
sum formula fails when a path occurs twice, because the second visit
processes the text the first visit wrote (the transform is not idempotent,
see the C2 counterexample).  With one file holding
`console.log(console.log(x)); console.log(y)` and the path list naming it
twice, the run reports 2 + 1 = 3 changes, while the sum of the change
counts computed from the files' original contents is 2 + 2 = 4. -/
theorem c6_counterexample :
    (mainLoop fsTwice ["p.ts".toList, "p.ts".toList]).1 = 3
    ∧ ((["p.ts".toList, "p.ts".toList] : List Str).map fun p =>
        match fsTwice p with
        | some c => (processFileW p c).2
        | none => 0).sum = 4 := by decide

/-- C6, amended: for every *duplicate-free* list of input paths and every
file system, the run completes with every missing path reported and
skipped (the reported-missing list is exactly the sublist of paths at
which no file exists), and the reported total equals the sum of the
change counts of the files that do exist. -/
theorem c6_amended (paths : List Str) :
    ∀ fs : Str → Option Str, paths.Nodup →
      (mainLoop fs paths).1
          = (paths.map fun p =>
              match fs p with
              | some c => (processFileW p c).2
              | none => 0).sum
      ∧ (mainLoop fs paths).2.1 = paths.filter fun p => (fs p).isNone := by
  induction paths with
  | nil => intro fs _; exact ⟨rfl, rfl⟩
  | cons p ps ih =>
    intro fs hnd
    obtain ⟨hp, hnd'⟩ := List.nodup_cons.mp hnd
    cases hv : fs p with
    | none =>
      obtain ⟨h1, h2⟩ := ih fs hnd'
      constructor
      · simp only [mainLoop, hv, List.map_cons, List.sum_cons]
        rw [h1]
        simp
      · simp only [mainLoop, hv, List.filter_cons]
        rw [h2]
        simp [hv]
    | some c =>
      cases hw : (processFileW p c).1 with
      | some nt =>
        have hag : ∀ q ∈ ps, updateFs fs p nt q = fs q := by
          intro q hq
          have hqp : q ≠ p := fun hqe => hp (hqe ▸ hq)
          simp [updateFs, hqp]
        obtain ⟨h1, h2⟩ := ih (updateFs fs p nt) hnd'
        have hmap : (ps.map fun q =>
              match updateFs fs p nt q with
              | some c2 => (processFileW q c2).2
              | none => 0)
            = ps.map fun q =>
              match fs q with
              | some c2 => (processFileW q c2).2
              | none => 0 :=
          List.map_congr_left fun q hq => by rw [hag q hq]
        have hfil : (ps.filter fun q => (updateFs fs p nt q).isNone)
            = ps.filter fun q => (fs q).isNone :=
          List.filter_congr fun q hq => by rw [hag q hq]
        constructor
        · simp only [mainLoop, hv, hw, List.map_cons, List.sum_cons]
          rw [h1, hmap]
        · simp only [mainLoop, hv, hw, List.filter_cons]
          rw [h2, hfil]
          simp [hv]
      | none =>
        obtain ⟨h1, h2⟩ := ih fs hnd'
        constructor
        · simp only [mainLoop, hv, hw, List.map_cons, List.sum_cons]
          rw [h1]
        · simp only [mainLoop, hv, hw, List.filter_cons]
          rw [h2]
          simp [hv]

/-- C6, witness: the amended statement at a duplicate-free path list. -/
theorem c6_witness :
    (["a.ts".toList, "b.ts".toList] : List Str).Nodup
    ∧ ((mainLoop (fun _ => none) ["a.ts".toList, "b.ts".toList]).1
          = ((["a.ts".toList, "b.ts".toList] : List Str).map fun p =>
              match (fun _ => (none : Option Str)) p with
              | some c => (processFileW p c).2
              | none => 0).sum
      ∧ (mainLoop (fun _ => none) ["a.ts".toList, "b.ts".toList]).2.1
          = (["a.ts".toList, "b.ts".toList] : List Str).filter
              fun p => ((fun _ => (none : Option Str)) p).isNone) :=
  ⟨by decide,
   c6_amended ["a.ts".toList, "b.ts".toList] (fun _ => none) (by decide)⟩

/-- C7: the reported change count is 0 and the file is not written exactly
when the transformed text equals the original; when they differ, the file
is overwritten with the transformed text and the transform's change count
(import insertion counting as 1, as `processText` accumulates it) is
returned. -/
theorem c7_theorem (path c : Str) :
    ((processFileW path c).2 = 0 ∧ (processFileW path c).1 = none
        ↔ (processText path c).1 = c)
    ∧ ((processText path c).1 ≠ c →
        processFileW path c
          = (some (processText path c).1, (processText path c).2)) := by
  by_cases h : (processText path c).1 = c
  · have hw : processFileW path c = (none, 0) := by
      rw [processFileW]
      simp [h]
    constructor
    · constructor
      · intro _
        exact h
      · intro _
        rw [hw]
        exact ⟨rfl, rfl⟩
    · intro hne
      exact absurd h hne
  · have hw : processFileW path c
        = (some (processText path c).1, (processText path c).2) := by
      rw [processFileW]
      simp [h]
    constructor
    · constructor
      · intro hlhs
        rw [hw] at hlhs
        exact absurd hlhs.2 (by simp)
      · intro hc
        exact absurd hc h
    · intro _
      exact hw

/-- C8: the substitution stage decomposes rule by rule: its total change
count is the sum over rule positions of the count attributed to each rule;
the text entering rule `k+1` is the result of rule `k`'s substitution on
the text that entered rule `k`; and whenever rule `k`'s substitution
changes its input text, the count attributed to it is the number of
matches of its pattern in that input text (found before the
substitution). -/
theorem c8_theorem (t : Str) :
    (rulesPass t).2
        = ((List.range rules.length).map fun k => attributedFrom rules k t).sum
    ∧ (rulesPass t).1 = stageTextFrom rules rules.length t
    ∧ ∀ k, k < rules.length →
        stageTextFrom rules (k + 1) t
            = subRule (rules.getD k defRule) (stageTextFrom rules k t)
        ∧ (subRule (rules.getD k defRule) (stageTextFrom rules k t)
              ≠ stageTextFrom rules k t →
            attributedFrom rules k t
              = countRule (rules.getD k defRule) (stageTextFrom rules k t)) := by
  obtain ⟨h1, h2⟩ := applyRulesFrom_decomp rules t
  refine ⟨h1, h2, fun k hk => ⟨stageTextFrom_succ rules defRule k t hk, fun hne => ?_⟩⟩
  have hget : rules[k]? = some (rules.getD k defRule) := by
    rw [List.getElem?_eq_getElem hk, List.getD_eq_getElem rules defRule hk]
  rw [attributedFrom, hget]
  show (if subRule (rules.getD k defRule) (stageTextFrom rules k t)
          ≠ stageTextFrom rules k t
        then countRule (rules.getD k defRule) (stageTextFrom rules k t) else 0)
      = countRule (rules.getD k defRule) (stageTextFrom rules k t)
  rw [if_pos hne]

/-- C9: on a text with no match of any rewrite rule and no match of the
generic import pattern, the transform returns the text unchanged and
reports 0 changes; in particular, with zero import statements no import
line is inserted (whether or not a logger marker is present). -/
theorem c9_theorem (path t : Str)
    (h1 : findImports t = [])
    (h2 : ∀ r ∈ rules, countRule r t = 0) :
    processText path t = (t, 0) := by
  have hfix : ∀ r ∈ rules, subRule r t = t :=
    fun r hr => countRule_zero_subRule r t (h2 r hr)
  have ha : addLoggerImport path t = (t, 0) := by
    by_cases hm : hasLoggerImport t
    · rw [addLoggerImport, hm]
      simp
    · have hm' : hasLoggerImport t = false := by
        revert hm; cases hasLoggerImport t <;> simp
      rw [addLoggerImport, hm', h1]
      simp
  have hrp : rulesPass t = (t, 0) := applyRulesFrom_fixed rules t hfix
  rw [processText, ha]
  simp [hrp]

/-- C9, witness: a text with neither console calls nor import statements. -/
theorem c9_witness :
    findImports "const x = 1;\nexport default x;".toList = []
    ∧ (∀ r ∈ rules,
        countRule r "const x = 1;\nexport default x;".toList = 0)
    ∧ processText "nodes/foo.ts".toList "const x = 1;\nexport default x;".toList
        = ("const x = 1;\nexport default x;".toList, 0) :=
  ⟨by decide, by decide,
   c9_theorem "nodes/foo.ts".toList "const x = 1;\nexport default x;".toList
     (by decide) (by decide)⟩

/-- C10: the substitution patterns are not anchored at an identifier
boundary.  The text `myconsole.log("x")` contains no call on the `console`
object, yet the double-quoted `log` rule matches the `console.log("x")`
suffix of `myconsole.log(...)` and rewrites it, yielding
`mylogger.log("x")` with one reported change (a trailing logger marker
keeps the import-insertion stage out of the picture). -/
theorem c10_theorem :
    processText "nodes/foo.ts".toList
        "myconsole.log(\"x\") // from \"./Logger\"".toList
      = ("mylogger.log(\"x\") // from \"./Logger\"".toList, 1) := by decide

end ConsoleRewrite
